import Mathlib

/-!
Shallow embedding of the gitlab-cli bulk-administration client.

The definitions below are translated from the Rust sources:
  src/models/project.rs, src/models/user.rs   (data model)
  src/gitlab/users.rs                         (user lookup, membership grant)
  src/gitlab/projects.rs                      (pagination)
  src/gitlab/files.rs                         (file-existence probe)
  src/commands/topics.rs, user.rs, file.rs    (target resolution, batch loops)

Network interaction is modelled by passing the server's behaviour in
explicitly (outcome functions inside an environment record) and by
returning, next to the computed result, the list of network calls the
code issues, in order.
-/

deriving instance DecidableEq for Except

/-! ## Data model (src/models/project.rs, src/models/user.rs) -/

structure Project where
  id : Nat
  path_with_namespace : String
  name : String
  description : Option String
  default_branch : Option String
  visibility : String
  web_url : String
  topics : List String
deriving DecidableEq, Repr

structure User where
  id : Nat
  username : String
  name : String
  state : String
  email : Option String
deriving DecidableEq, Repr

inductive AccessLevel where
  | NoAccess
  | MinimalAccess
  | Guest
  | Planner
  | Reporter
  | Developer
  | Maintainer
  | Owner
deriving DecidableEq, Repr

/-- Source `AccessLevel::as_u64` from src/models/user.rs. -/
def AccessLevel.as_u64 : AccessLevel → Nat
  | .NoAccess => 0
  | .MinimalAccess => 5
  | .Guest => 10
  | .Planner => 15
  | .Reporter => 20
  | .Developer => 30
  | .Maintainer => 40
  | .Owner => 50

/-! ## String helpers mirroring the Rust std behaviour used by the code -/

/-- ASCII lower-casing of one character, as `str::to_lowercase` acts on the
ASCII inputs relevant here. -/
def lowerChar (c : Char) : Char :=
  if 'A' ≤ c ∧ c ≤ 'Z' then Char.ofNat (c.toNat + 32) else c

/-- Lower-case a string character-wise. -/
def toLowerStr (s : String) : String := ⟨s.data.map lowerChar⟩

/-- Whitespace test used by `str::trim` (ASCII subset). -/
def isWS (c : Char) : Bool := c = ' ' || c = '\t' || c = '\n' || c = '\r'

/-- Rust `str::trim`: drop leading and trailing whitespace. -/
def trimStr (s : String) : String :=
  ⟨((s.data.dropWhile isWS).reverse.dropWhile isWS).reverse⟩

/-- Rust `u64::from_str`: optional leading plus sign, then one or more ASCII
digits, value below 2^64. -/
def parseU64 (s : String) : Option Nat :=
  let cs := match s.data with
            | '+' :: rest => rest
            | cs => cs
  if cs.isEmpty then none
  else if cs.all Char.isDigit then
    let n := cs.foldl (fun acc c => acc * 10 + (c.toNat - 48)) 0
    if n < 2 ^ 64 then some n else none
  else none

/-- Rust `str::split` at a separator character: list of the delimited pieces
(an empty input yields one empty piece). -/
def splitChars (sep : Char) : List Char → List (List Char)
  | [] => [[]]
  | c :: cs =>
    if c = sep then [] :: splitChars sep cs
    else
      match splitChars sep cs with
      | [] => [[c]]
      | h :: t => (c :: h) :: t

/-- Source `change.split(':')` from src/commands/file.rs, as strings. -/
def splitColon (s : String) : List String :=
  (splitChars ':' s.data).map String.mk

/-- Suffix of a character list after its last dot, when a dot occurs. -/
def afterLastDot : List Char → Option (List Char)
  | [] => none
  | c :: cs =>
    match afterLastDot cs with
    | some suf => some suf
    | none => if c = '.' then some cs else none

/-- Rust `Path::extension().and_then(to_str).unwrap_or("")` on a file name:
text after the last dot, except that a dot in first position alone does
not begin an extension. -/
def extensionOf (f : String) : String :=
  match f.data with
  | [] => ""
  | _ :: rest =>
    match afterLastDot rest with
    | some suf => String.mk suf
    | none => ""

/-- Substring containment test (`String::contains` on a literal). -/
def strContains (s pat : String) : Bool := decide (pat.data <:+: s.data)

/-! ## AccessLevel parsing (`FromStr for AccessLevel`, src/models/user.rs) -/

/-- Source `AccessLevel::from_str`: lower-case the input, then match it against
the symbolic and numeric spellings; anything else is an error. -/
def AccessLevel.from_str (s : String) : Except String AccessLevel :=
  let t := toLowerStr s
  if t = "noaccess" ∨ t = "no_access" ∨ t = "no-access" ∨ t = "0" then .ok .NoAccess
  else if t = "minimalaccess" ∨ t = "minimal_access" ∨ t = "minimal-access" ∨ t = "5" then
    .ok .MinimalAccess
  else if t = "guest" ∨ t = "10" then .ok .Guest
  else if t = "planner" ∨ t = "15" then .ok .Planner
  else if t = "reporter" ∨ t = "20" then .ok .Reporter
  else if t = "developer" ∨ t = "30" then .ok .Developer
  else if t = "maintainer" ∨ t = "40" then .ok .Maintainer
  else if t = "owner" ∨ t = "50" then .ok .Owner
  else .error ("Invalid access level: " ++ s)

/-- The exact set of lower-cased spellings `from_str` accepts. -/
def accessTokens : List String :=
  ["noaccess", "no_access", "no-access", "0",
   "minimalaccess", "minimal_access", "minimal-access", "5",
   "guest", "10", "planner", "15", "reporter", "20",
   "developer", "30", "maintainer", "40", "owner", "50"]

/-! ## HTTP outcomes

A single HTTP attempt either produced a response (with a status code and
a body) or failed at the transport level before any response arrived. -/

inductive HttpResult where
  | resp (status : Nat) (body : String)
  | transportErr (msg : String)
deriving DecidableEq, Repr

/-- Rust `reqwest::StatusCode::is_success`: 2xx. -/
def isSuccessStatus (status : Nat) : Bool := 200 ≤ status && status < 300

/-- Whether an attempt came back as a response with a success status. -/
def HttpResult.isSuccess : HttpResult → Bool
  | .resp s _ => isSuccessStatus s
  | .transportErr _ => false

/-! ## Pagination (src/gitlab/projects.rs, `find_by_topic` and `list`)

The server is modelled as a function from page number to the outcome of
that page request. The loop in the source runs until a page comes back
empty; `fuel` bounds the number of iterations the model unfolds (the
zero-fuel result stands for the loop still running) and every theorem
below is stated with enough fuel for the loop to have terminated. The
pair returned is (pages requested in order, accumulated result). -/

def paginate (fetch : Nat → Except String (List Project)) :
    Nat → Nat → List Nat × Except String (List Project)
  | 0, _ => ([], .error "loop bound exceeded")
  | fuel + 1, page =>
    match fetch page with
    | .error e => ([page], .error e)
    | .ok l =>
      if l.isEmpty then ([page], .ok [])
      else
        match paginate fetch fuel (page + 1) with
        | (reqs, .error e) => (page :: reqs, .error e)
        | (reqs, .ok rest) => (page :: reqs, .ok (l ++ rest))

/-- Source `ProjectsApi::find_by_topic`: paginated fetch starting at page 1. -/
def find_by_topic (fetch : Nat → Except String (List Project)) (fuel : Nat) :
    List Nat × Except String (List Project) :=
  paginate fetch fuel 1

/-- Source `ProjectsApi::list`: same loop as `find_by_topic`, different URL. -/
def listProjects (fetch : Nat → Except String (List Project)) (fuel : Nat) :
    List Nat × Except String (List Project) :=
  paginate fetch fuel 1

/-! ## File-existence probe and write routing
(src/gitlab/files.rs `file_exists`, src/commands/file.rs `update_files`) -/

/-- Source `FilesApi::file_exists`: a transport error maps to `false`, a response
maps to its status' success bit; the function itself never errors. -/
def file_exists (probe : HttpResult) : Bool :=
  match probe with
  | .resp s _ => isSuccessStatus s
  | .transportErr _ => false

inductive WriteRoute where
  | createPost
  | updatePut
deriving DecidableEq, Repr

/-- The branch `update_files` takes for one project once the probe came
back: update (PUT) when the probe succeeded, create (POST) otherwise. -/
def writeRouteOf (probe : HttpResult) : WriteRoute :=
  if file_exists probe then .updatePut else .createPost

/-- Effective branch in `update_files`: the explicit flag, else the
project's default branch, else the literal "main". -/
def effectiveBranch (flag : Option String) (default_branch : Option String) : String :=
  match flag with
  | some b => b
  | none => default_branch.getD "main"

/-! ## Content rewriting (src/commands/file.rs, `update_files`)

Replacement of every occurrence of a literal pattern, mirroring
`str::replace`: scan left to right, at each position emit the
replacement and skip the pattern when the pattern starts there, else
keep the character; the empty pattern matches at every boundary. -/

def replaceGo (pat rep : List Char) : Nat → List Char → List Char
  | _, [] => if pat.isEmpty then rep else []
  | 0, s => s
  | fuel + 1, c :: cs =>
    if pat.isEmpty then rep ++ c :: replaceGo pat rep fuel cs
    else
      if pat.isPrefixOf (c :: cs) then
        rep ++ replaceGo pat rep fuel ((c :: cs).drop pat.length)
      else c :: replaceGo pat rep fuel cs

/-- The scan itself: the fuel argument only bounds the recursion depth
and the scan never runs out of it, since every step shortens the
remaining text (see the fuel-invariance lemma below). -/
def replaceList (pat rep s : List Char) : List Char :=
  replaceGo pat rep s.length s

/-- Rust `content.replace(old, new)` on strings. -/
def replaceStr (content old new : String) : String :=
  ⟨replaceList old.data new.data content.data⟩

/-- One entry of the `--changes` list: split at ':'; exactly two parts
perform a literal replacement, anything else is skipped. -/
def applyChange (content : String) (change : String) : String :=
  let parts := splitColon change
  match parts with
  | [a, b] => replaceStr content a b
  | _ => content

/-- The `for change in changes` loop of `update_files`: sequential
application to the full content. -/
def applyChanges (changes : List String) (content : String) : String :=
  changes.foldl applyChange content

/-! ## Username lookup (src/gitlab/users.rs, `get_by_username`)

The server's answer to `GET /users?username=U` is passed in: either a
propagated request/decode error or the decoded user array. -/

def get_by_username (resp : Except String (List User)) (username : String) :
    Except String User :=
  match resp with
  | .error e => .error e
  | .ok users =>
    match users with
    | u :: _ => .ok u
    | [] => .error ("User not found: " ++ username)

/-! ## Membership grant (src/gitlab/users.rs, `add_to_project`)

The environment carries the outcome of the members-endpoint POST and of
the invitations-endpoint POST; the function returns the calls it issued
(in order, with the payload's user id field as transported) and the
overall result. -/

inductive UserIdField where
  | num (n : Nat)
  | str (s : String)
deriving DecidableEq, Repr

inductive GrantEndpoint where
  | members
  | invitations
deriving DecidableEq, Repr

structure GrantCall where
  endpoint : GrantEndpoint
  user_id : UserIdField
  access_level : Nat
deriving DecidableEq, Repr

structure GrantEnv where
  membersResult : HttpResult
  invitationsResult : HttpResult
deriving DecidableEq, Repr

def add_to_project (env : GrantEnv) (user_id project_id : Nat)
    (access_level : AccessLevel) : List GrantCall × Except String Unit :=
  let primary : GrantCall := ⟨.members, .num user_id, access_level.as_u64⟩
  let fallback : GrantCall := ⟨.invitations, .str (toString user_id), access_level.as_u64⟩
  match env.membersResult with
  | .resp s body =>
    if isSuccessStatus s then ([primary], .ok ())
    else
      match env.invitationsResult with
      | .resp s2 body2 =>
        if isSuccessStatus s2 then ([primary, fallback], .ok ())
        else
          ([primary, fallback],
           .error ("Failed to add user to project. Members endpoint error: " ++ body ++
                   ". Invitations endpoint error: " ++ body2))
      | .transportErr e2 => ([primary, fallback], .error e2)
  | .transportErr _ =>
    match env.invitationsResult with
    | .resp s2 body2 =>
      if isSuccessStatus s2 then ([primary, fallback], .ok ())
      else ([primary, fallback], .error ("Failed to add user to project: " ++ body2))
    | .transportErr e2 => ([primary, fallback], .error e2)

/-! ## Target resolution and the topics commands
(src/commands/topics.rs; `resolve_project_ids` is duplicated verbatim in
src/commands/user.rs and src/commands/file.rs) -/

inductive NetCall where
  | getById (id : Nat)
  | getByPath (path : String)
  | topicPage (topic : String) (page : Nat)
  | updateTopics (project_id : Nat) (topics : List String)
deriving DecidableEq, Repr

/-- The remote lookups and mutations a command can reach, as outcome
functions, plus the page-loop bound for the tag-filter mode. -/
structure CmdEnv where
  byId : Nat → Except String Project
  byPath : String → Except String Project
  fetchTopicPage : String → Nat → Except String (List Project)
  csvProjects : String → Except String (List Project)
  updateResult : Nat → List String → Except String Project
  pageFuel : Nat

/-- The body of the `for id_or_path in project_ids` loop: a token that
parses as `u64` goes through `get_by_id`, any other token through
`get_by_path`. -/
def lookupExcept (env : CmdEnv) (t : String) : Except String Project :=
  match parseU64 t with
  | some n => env.byId n
  | none => env.byPath t

/-- The network call the loop issues for one token. -/
def lookupCallOf (t : String) : NetCall :=
  match parseU64 t with
  | some n => .getById n
  | none => .getByPath t

/-- Source `resolve_project_ids`: token-order loop, first failure aborts with
the error and no later token is looked up. -/
def resolve_project_ids (env : CmdEnv) : List String → List NetCall × Except String (List Project)
  | [] => ([], .ok [])
  | t :: ts =>
    match lookupExcept env t with
    | .error e => ([lookupCallOf t], .error e)
    | .ok p =>
      match resolve_project_ids env ts with
      | (calls, .error e) => (lookupCallOf t :: calls, .error e)
      | (calls, .ok rest) => (lookupCallOf t :: calls, .ok (p :: rest))

/-- Source `load_projects_from_file`: only the `csv` extension (compared
lower-cased) reaches the adapter; no network call either way. -/
def load_projects_from_file (env : CmdEnv) (f : String) : Except String (List Project) :=
  if toLowerStr (extensionOf f) = "csv" then env.csvProjects f
  else
    .error ("Unsupported file format: " ++ extensionOf f ++ ". Only CSV files are supported.")

/-- Arguments of the topics add/remove subcommands: the tag list and the
three mutually exclusive selection flags. -/
structure TopicsArgs where
  topics : List String
  project_file : Option String
  project_ids : Option (List String)
  filter_topic : Option String

/-- The selection `if let` chain shared by `add_topics`, `remove_topics`
and `list_topics`: file first, then explicit ids, then tag filter, else
a usage error. -/
def selectProjects (env : CmdEnv) (args : TopicsArgs) :
    List NetCall × Except String (List Project) :=
  match args.project_file with
  | some f => ([], load_projects_from_file env f)
  | none =>
    match args.project_ids with
    | some ids => resolve_project_ids env ids
    | none =>
      match args.filter_topic with
      | some t =>
        match paginate (env.fetchTopicPage t) env.pageFuel 1 with
        | (pages, r) => (pages.map (NetCall.topicPage t), r)
      | none =>
        ([], .error "Either --project-file, --project-ids, or --filter-topic must be provided")

/-- Trim each requested tag and drop the empties, as both `add_topics`
and `remove_topics` do before validating. -/
def trimTopics (ts : List String) : List String :=
  (ts.map trimStr).filter (fun t => !t.isEmpty)

/-- The tag-union computation inside `add_topics`: start from the
project's current topics and push each requested topic not already
present. -/
def addNewTopics (current requested : List String) : List String :=
  requested.foldl (fun acc t => if acc.contains t then acc else acc ++ [t]) current

/-- The mutation loop of `add_topics`: one tag-set replace call per
project with the union as body; the first failing call aborts the loop
with a contextual error. -/
def addUpdateLoop (env : CmdEnv) (ts : List String) :
    List Project → List NetCall × Except String Unit
  | [] => ([], .ok ())
  | p :: ps =>
    let newTopics := addNewTopics p.topics ts
    match env.updateResult p.id newTopics with
    | .error e =>
      ([.updateTopics p.id newTopics],
       .error ("Failed to update topics for project " ++ p.path_with_namespace ++ ": " ++ e))
    | .ok _ =>
      match addUpdateLoop env ts ps with
      | (calls, r) => (.updateTopics p.id newTopics :: calls, r)

/-- The mutation loop of `remove_topics`: submit current topics minus
the removal set. -/
def removeUpdateLoop (env : CmdEnv) (ts : List String) :
    List Project → List NetCall × Except String Unit
  | [] => ([], .ok ())
  | p :: ps =>
    let newTopics := p.topics.filter (fun t => !ts.contains t)
    match env.updateResult p.id newTopics with
    | .error e =>
      ([.updateTopics p.id newTopics],
       .error ("Failed to update topics for project " ++ p.path_with_namespace ++ ": " ++ e))
    | .ok _ =>
      match removeUpdateLoop env ts ps with
      | (calls, r) => (.updateTopics p.id newTopics :: calls, r)

/-- Source `add_topics`: select targets, then trim and validate the tag list,
then run the mutation loop. -/
def add_topics (env : CmdEnv) (args : TopicsArgs) : List NetCall × Except String Unit :=
  match selectProjects env args with
  | (calls, .error e) => (calls, .error e)
  | (calls, .ok projects) =>
    let ts := trimTopics args.topics
    if ts.isEmpty then (calls, .error "No valid topics provided")
    else
      match addUpdateLoop env ts projects with
      | (calls2, r) => (calls ++ calls2, r)

/-! ## User resolution (src/commands/user.rs, `resolve_user_ids`) -/

inductive UserNetCall where
  | getById (id : Nat)
  | getByUsername (username : String)
deriving DecidableEq, Repr

structure UserCmdEnv where
  byId : Nat → Except String User
  byUsername : String → Except String User

/-- The body of the `for id_or_username in user_ids` loop. -/
def userLookupExcept (env : UserCmdEnv) (t : String) : Except String User :=
  match parseU64 t with
  | some n => env.byId n
  | none => env.byUsername t

/-- The network call that loop issues for one token. -/
def userLookupCallOf (t : String) : UserNetCall :=
  match parseU64 t with
  | some n => .getById n
  | none => .getByUsername t

/-- Source `resolve_user_ids`: token-order loop, first failure aborts. -/
def resolve_user_ids (env : UserCmdEnv) : List String → List UserNetCall × Except String (List User)
  | [] => ([], .ok [])
  | t :: ts =>
    match userLookupExcept env t with
    | .error e => ([userLookupCallOf t], .error e)
    | .ok u =>
      match resolve_user_ids env ts with
      | (calls, .error e) => (userLookupCallOf t :: calls, .error e)
      | (calls, .ok rest) => (userLookupCallOf t :: calls, .ok (u :: rest))

/-- Source `remove_topics`: same shape as `add_topics` with the removal loop. -/
def remove_topics (env : CmdEnv) (args : TopicsArgs) : List NetCall × Except String Unit :=
  match selectProjects env args with
  | (calls, .error e) => (calls, .error e)
  | (calls, .ok projects) =>
    let ts := trimTopics args.topics
    if ts.isEmpty then (calls, .error "No valid topics provided")
    else
      match removeUpdateLoop env ts projects with
      | (calls2, r) => (calls ++ calls2, r)

/-! ## Concrete fixtures used by witnesses and counterexamples -/

/-- A project reachable under id 5 and under path "group/proj". -/
def p5 : Project :=
  { id := 5, path_with_namespace := "group/proj", name := "proj", description := none,
    default_branch := none, visibility := "private", web_url := "", topics := [] }

/-- The spec's end-to-end fixture: project 456 with topics test/example. -/
def pT : Project :=
  { id := 456, path_with_namespace := "g/t", name := "t", description := none,
    default_branch := none, visibility := "private", web_url := "", topics := ["test", "example"] }

/-- An environment where project 5 resolves by id and by path and every
tag-set replace call succeeds. -/
def env0 : CmdEnv :=
  { byId := fun n => if n = 5 then .ok p5 else if n = 456 then .ok pT else .error "404 Project Not Found",
    byPath := fun s => if s = "group/proj" then .ok p5 else .error "404 Project Not Found",
    fetchTopicPage := fun _ _ => .ok [],
    csvProjects := fun _ => .error "no file",
    updateResult := fun _ _ => .ok p5,
    pageFuel := 1 }

/-- Three-page fixture: two non-empty pages, then an empty page. -/
def pages1 : Nat → List Project :=
  fun n => if n = 1 then [p5] else if n = 2 then [pT] else []

/-- A user fixture reachable under id 7 and username "alice". -/
def u7 : User :=
  { id := 7, username := "alice", name := "Alice", state := "active", email := none }

/-- A user-command environment where only user 7 / "alice" resolves. -/
def uenv0 : UserCmdEnv :=
  { byId := fun n => if n = 7 then .ok u7 else .error "404 User Not Found",
    byUsername := fun s => if s = "alice" then .ok u7 else .error "404 User Not Found" }

/-- Whether a network call is a tag-set replace mutation. -/
def NetCall.isUpdate : NetCall → Bool
  | .updateTopics _ _ => true
  | _ => false

/-! ## Helper lemmas about the tag-union fold -/

lemma addNewTopics_cons (c : List String) (t : String) (ts : List String) :
    addNewTopics c (t :: ts) = addNewTopics (if c.contains t then c else c ++ [t]) ts := rfl

lemma addTopicStep_mem (c : List String) (t : String) (h : t ∈ c) :
    (if c.contains t then c else c ++ [t]) = c := by simp [h]

lemma addTopicStep_not_mem (c : List String) (t : String) (h : t ∉ c) :
    (if c.contains t then c else c ++ [t]) = c ++ [t] := by simp [h]

lemma mem_addNewTopics (c r : List String) (x : String) :
    x ∈ addNewTopics c r ↔ x ∈ c ∨ x ∈ r := by
  induction r generalizing c with
  | nil => simp [addNewTopics]
  | cons t ts ih =>
    rw [addNewTopics_cons]
    by_cases h : t ∈ c
    · rw [addTopicStep_mem c t h, ih]
      constructor
      · rintro (hx | hx)
        · exact Or.inl hx
        · exact Or.inr (List.mem_cons_of_mem t hx)
      · rintro (hx | hx)
        · exact Or.inl hx
        · rcases List.mem_cons.mp hx with rfl | hx
          · exact Or.inl h
          · exact Or.inr hx
    · rw [addTopicStep_not_mem c t h, ih]
      simp only [List.mem_append, List.mem_singleton, List.mem_cons]
      tauto

lemma nodup_addNewTopics (c r : List String) (hc : c.Nodup) :
    (addNewTopics c r).Nodup := by
  induction r generalizing c with
  | nil => exact hc
  | cons t ts ih =>
    rw [addNewTopics_cons]
    by_cases h : t ∈ c
    · rw [addTopicStep_mem c t h]
      exact ih c hc
    · rw [addTopicStep_not_mem c t h]
      refine ih _ ?_
      simp [List.nodup_append, hc, h]

lemma addNewTopics_starts_with (c r : List String) :
    c <+: addNewTopics c r := by
  induction r generalizing c with
  | nil => exact List.prefix_refl c
  | cons t ts ih =>
    rw [addNewTopics_cons]
    by_cases h : t ∈ c
    · rw [addTopicStep_mem c t h]
      exact ih c
    · rw [addTopicStep_not_mem c t h]
      have hstep := List.prefix_append c [t]
      exact List.IsPrefix.trans hstep (ih (c ++ [t]))

lemma addNewTopics_of_subset (c r : List String) (h : ∀ t ∈ r, t ∈ c) :
    addNewTopics c r = c := by
  induction r with
  | nil => rfl
  | cons t ts ih =>
    rw [addNewTopics_cons, addTopicStep_mem c t (h t (by simp))]
    exact ih fun x hx => h x (by simp [hx])

lemma addNewTopics_idem (c r : List String) :
    addNewTopics (addNewTopics c r) r = addNewTopics c r :=
  addNewTopics_of_subset _ _ fun t ht => (mem_addNewTopics c r t).mpr (Or.inr ht)

/-! ## Claim theorems -/

/-- C6: for a project with duplicate-free current topics and a non-empty
trimmed request list, `add_topics` submits through the tag-set replace
call exactly the union of current and requested topics (case-sensitive,
first-seen order, no duplicates); a tag already present adds nothing,
and running the same add twice submits the same final set as once. -/
theorem topic_add_submits_union (env : CmdEnv) (p : Project) (r : List String)
    (hc : p.topics.Nodup) (hr : r ≠ []) :
    (addUpdateLoop env r [p]).1 = [NetCall.updateTopics p.id (addNewTopics p.topics r)] ∧
    (addNewTopics p.topics r).Nodup ∧
    (∀ x, x ∈ addNewTopics p.topics r ↔ x ∈ p.topics ∨ x ∈ r) ∧
    p.topics <+: addNewTopics p.topics r ∧
    (∀ t ∈ p.topics, addNewTopics p.topics [t] = p.topics) ∧
    addNewTopics (addNewTopics p.topics r) r = addNewTopics p.topics r := by
  refine ⟨?_, nodup_addNewTopics _ _ hc, mem_addNewTopics _ _,
    addNewTopics_starts_with _ _, ?_, addNewTopics_idem _ _⟩
  · cases h : env.updateResult p.id (addNewTopics p.topics r) <;>
      simp [addUpdateLoop, h]
  · intro t ht
    exact addNewTopics_of_subset _ _ (by simpa using ht)

/-- Witness for C6 at the spec's own fixture: project 456 with topics
test/example plus requested backend submits exactly
test, example, backend. -/
theorem topic_add_submits_union_witness :
    (addUpdateLoop env0 ["backend"] [pT]).1 =
      [NetCall.updateTopics 456 ["test", "example", "backend"]] := by
  have h := (topic_add_submits_union env0 pT ["backend"] (by decide) (by decide)).1
  exact h.trans (by decide)

/-- C7: AccessLevel parsing accepts exactly the case-insensitive
symbolic spellings (with separator variants) and the eight literal
numeric strings, mapping them to the right level, and rejects
everything else; in particular the four spellings of Developer parse
to the value-30 level while "60" and "invalid" are parse errors. -/
theorem access_level_parse_spec :
    AccessLevel.from_str "Developer" = .ok .Developer ∧
    AccessLevel.from_str "developer" = .ok .Developer ∧
    AccessLevel.from_str "DEVELOPER" = .ok .Developer ∧
    AccessLevel.from_str "30" = .ok .Developer ∧
    AccessLevel.Developer.as_u64 = 30 ∧
    AccessLevel.from_str "60" = .error "Invalid access level: 60" ∧
    AccessLevel.from_str "invalid" = .error "Invalid access level: invalid" ∧
    (∀ s, (∃ l, AccessLevel.from_str s = .ok l) ↔ toLowerStr s ∈ accessTokens) ∧
    (∀ n, n ∈ [0, 5, 10, 15, 20, 30, 40, 50] →
      ∃ l, AccessLevel.from_str (toString n) = .ok l ∧ AccessLevel.as_u64 l = n) := by
  refine ⟨by decide, by decide, by decide, by decide, by decide, by decide, by decide, ?_, ?_⟩
  · intro s
    simp only [AccessLevel.from_str, accessTokens]
    split_ifs with h1 h2 h3 h4 h5 h6 h7 h8 <;> simp_all <;> tauto
  · intro n hn
    fin_cases hn
    · exact ⟨.NoAccess, by decide, rfl⟩
    · exact ⟨.MinimalAccess, by decide, rfl⟩
    · exact ⟨.Guest, by decide, rfl⟩
    · exact ⟨.Planner, by decide, rfl⟩
    · exact ⟨.Reporter, by decide, rfl⟩
    · exact ⟨.Developer, by decide, rfl⟩
    · exact ⟨.Maintainer, by decide, rfl⟩
    · exact ⟨.Owner, by decide, rfl⟩

/-- Witness for C7: the accepted-spellings characterization applied to
the concrete input "Owner", and the numeric conjunct applied at 40. -/
theorem access_level_parse_spec_witness :
    (∃ l, AccessLevel.from_str "Owner" = .ok l) ∧
    (∃ l, AccessLevel.from_str "40" = .ok l ∧ AccessLevel.as_u64 l = 40) := by
  refine ⟨((access_level_parse_spec.2.2.2.2.2.2.2.1) "Owner").mpr (by decide), ?_⟩
  have h := (access_level_parse_spec.2.2.2.2.2.2.2.2) 40 (by decide)
  simpa using h

/-! ## Pagination lemma and claim C3 -/

lemma paginate_pages_spec (pages : Nat → List Project) :
    ∀ (d s fuel : Nat), d + 1 ≤ fuel → pages (s + d) = [] →
      (∀ i, s ≤ i → i < s + d → pages i ≠ []) →
      paginate (fun i => .ok (pages i)) fuel s =
        (List.range' s (d + 1), .ok ((List.range' s d).flatMap pages)) := by
  intro d
  induction d with
  | zero =>
    intro s fuel hfuel hempty _
    match fuel, hfuel with
    | f + 1, _ =>
      simp only [paginate]
      rw [show pages s = [] from by simpa using hempty]
      simp [List.range']
  | succ d ih =>
    intro s fuel hfuel hempty hne
    match fuel, hfuel with
    | f + 1, hf =>
      have hs : pages s ≠ [] := hne s le_rfl (by omega)
      have hrec := ih (s + 1) f (by omega)
        (by simpa [Nat.add_comm, Nat.add_assoc, Nat.add_left_comm] using hempty)
        (fun i h1 h2 => hne i (by omega) (by omega))
      simp only [paginate]
      rw [hrec]
      simp [List.isEmpty_iff, hs, List.range', List.flatMap_cons]

/-- C3: when pages 1..k-1 are non-empty and page k is empty, the
paginated find-by-topic and list operations request exactly pages
1 through k in order, stop at the first empty page, and return the
in-order concatenation of pages 1..k-1 with no re-sorting. -/
theorem pagination_concat_spec (pages : Nat → List Project) (k : Nat) (hk : 1 ≤ k)
    (hempty : pages k = []) (hne : ∀ i, 1 ≤ i → i < k → pages i ≠ [])
    (fuel : Nat) (hfuel : k ≤ fuel) :
    find_by_topic (fun i => .ok (pages i)) fuel =
      (List.range' 1 k, .ok ((List.range' 1 (k - 1)).flatMap pages)) ∧
    listProjects (fun i => .ok (pages i)) fuel =
      (List.range' 1 k, .ok ((List.range' 1 (k - 1)).flatMap pages)) := by
  have h := paginate_pages_spec pages (k - 1) 1 fuel (by omega)
    (by rw [show 1 + (k - 1) = k from by omega]; exact hempty)
    (fun i h1 h2 => hne i h1 (by omega))
  rw [show k - 1 + 1 = k from by omega] at h
  exact ⟨h, h⟩

/-- Witness for C3 on the three-page fixture: pages [p5] and [pT]
followed by an empty page yield page1 ++ page2. -/
theorem pagination_concat_spec_witness :
    find_by_topic (fun i => .ok (pages1 i)) 3 = ([1, 2, 3], .ok ([p5] ++ [pT])) := by
  have h := (pagination_concat_spec pages1 3 (by omega) (by decide)
    (by intro i h1 h2; interval_cases i <;> decide) 3 (by omega)).1
  exact h.trans (by decide)

/-- C5: the create-or-update decision is total and two-valued: a probe
that failed in any way (transport error or non-success status) routes
the write to the create path (POST), and a probe that succeeded routes
it to the update path (PUT). -/
theorem probe_routes_write (probe : HttpResult) :
    (∀ e, probe = .transportErr e → writeRouteOf probe = .createPost) ∧
    (∀ s b, probe = .resp s b → isSuccessStatus s = false → writeRouteOf probe = .createPost) ∧
    (∀ s b, probe = .resp s b → isSuccessStatus s = true → writeRouteOf probe = .updatePut) ∧
    (writeRouteOf probe = .createPost ∨ writeRouteOf probe = .updatePut) := by
  refine ⟨?_, ?_, ?_, ?_⟩
  · rintro e rfl
    rfl
  · rintro s b rfl h
    simp [writeRouteOf, file_exists, h]
  · rintro s b rfl h
    simp [writeRouteOf, file_exists, h]
  · by_cases h : file_exists probe
    · exact Or.inr (by simp [writeRouteOf, h])
    · exact Or.inl (by simp [writeRouteOf, h])

/-- Witness for C5: a transport error and a 404 route to create, a 200
routes to update. -/
theorem probe_routes_write_witness :
    writeRouteOf (.transportErr "connection refused") = .createPost ∧
    writeRouteOf (.resp 404 "not found") = .createPost ∧
    writeRouteOf (.resp 200 "ok") = .updatePut :=
  ⟨(probe_routes_write _).1 "connection refused" rfl,
   (probe_routes_write _).2.1 404 "not found" rfl (by decide),
   (probe_routes_write _).2.2.1 200 "ok" rfl (by decide)⟩

/-- C10: a username lookup returns exactly the first element of a
non-empty result array, turns a successful empty array into a
"User not found" error, and never succeeds without a user taken from
the head of the array. -/
theorem get_by_username_first (resp : Except String (List User)) (username : String) :
    (∀ u rest, resp = .ok (u :: rest) → get_by_username resp username = .ok u) ∧
    (resp = .ok [] →
      get_by_username resp username = .error ("User not found: " ++ username)) ∧
    (∀ u, get_by_username resp username = .ok u → ∃ rest, resp = .ok (u :: rest)) := by
  refine ⟨?_, ?_, ?_⟩
  · rintro u rest rfl
    rfl
  · rintro rfl
    rfl
  · intro u h
    cases resp with
    | error e => simp [get_by_username] at h
    | ok users =>
      cases users with
      | nil => simp [get_by_username] at h
      | cons v rest =>
        simp [get_by_username] at h
        exact ⟨rest, by rw [h]⟩

/-- Witness for C10 at a two-element array and at an empty array. -/
theorem get_by_username_first_witness :
    get_by_username
      (.ok [⟨7, "alice", "Alice", "active", none⟩, ⟨8, "bob", "Bob", "active", none⟩])
      "alice" = .ok ⟨7, "alice", "Alice", "active", none⟩ ∧
    get_by_username (.ok []) "bob" = .error "User not found: bob" := by
  constructor
  · exact (get_by_username_first _ "alice").1 _ [⟨8, "bob", "Bob", "active", none⟩] rfl
  · have h := (get_by_username_first (.ok []) "bob").2.1 rfl
    exact h.trans (by decide)

/-- Counterexample for C2: when the primary members-endpoint call fails
with an HTTP error body and the fallback invitations call fails at the
transport level, both attempts have failed, yet the returned failure
message is the transport error alone and does not contain the members
endpoint's error body. -/
theorem add_to_project_both_bodies_cex :
    HttpResult.isSuccess (.resp 403 "B1") = false ∧
    HttpResult.isSuccess (.transportErr "E2") = false ∧
    (add_to_project ⟨.resp 403 "B1", .transportErr "E2"⟩ 7 9 .Maintainer).2 = .error "E2" ∧
    strContains "E2" "B1" = false := by decide

/-- C2 amended: primary success short-circuits with no fallback call; a
primary failure of any kind triggers exactly one fallback call to the
invitations endpoint with the user id transported as a string; when both
attempts fail with non-success HTTP statuses the failure message carries
both error bodies, while a transport-level fallback failure is
propagated as-is. -/
theorem add_to_project_fallback_spec (env : GrantEnv) (uid pid : Nat) (lvl : AccessLevel) :
    (env.membersResult.isSuccess = true →
      add_to_project env uid pid lvl =
        ([⟨.members, .num uid, lvl.as_u64⟩], .ok ())) ∧
    (env.membersResult.isSuccess = false →
      (add_to_project env uid pid lvl).1 =
        [⟨.members, .num uid, lvl.as_u64⟩,
         ⟨.invitations, .str (toString uid), lvl.as_u64⟩]) ∧
    (∀ s b s2 b2, env.membersResult = .resp s b → isSuccessStatus s = false →
      env.invitationsResult = .resp s2 b2 → isSuccessStatus s2 = false →
      ∃ msg, (add_to_project env uid pid lvl).2 = .error msg ∧
        strContains msg b = true ∧ strContains msg b2 = true) ∧
    (∀ e2, env.membersResult.isSuccess = false → env.invitationsResult = .transportErr e2 →
      (add_to_project env uid pid lvl).2 = .error e2) := by
  obtain ⟨mres, ires⟩ := env
  refine ⟨?_, ?_, ?_, ?_⟩
  · intro h
    cases mres with
    | resp s b =>
      simp only [HttpResult.isSuccess] at h
      simp [add_to_project, h]
    | transportErr e => simp [HttpResult.isSuccess] at h
  · intro h
    cases mres with
    | resp s b =>
      simp only [HttpResult.isSuccess] at h
      cases ires with
      | resp s2 b2 =>
        by_cases h2 : isSuccessStatus s2 <;> simp [add_to_project, h, h2]
      | transportErr e2 => simp [add_to_project, h]
    | transportErr e =>
      cases ires with
      | resp s2 b2 =>
        by_cases h2 : isSuccessStatus s2 <;> simp [add_to_project, h2]
      | transportErr e2 => simp [add_to_project]
  · rintro s b s2 b2 rfl h rfl h2
    refine ⟨"Failed to add user to project. Members endpoint error: " ++ b ++
      ". Invitations endpoint error: " ++ b2, ?_, ?_, ?_⟩
    · simp [add_to_project, h, h2]
    · simp only [strContains, decide_eq_true_eq]
      refine ⟨"Failed to add user to project. Members endpoint error: ".data,
        ". Invitations endpoint error: ".data ++ b2.data, ?_⟩
      simp [List.append_assoc]
    · simp only [strContains, decide_eq_true_eq]
      refine ⟨("Failed to add user to project. Members endpoint error: " ++ b ++
        ". Invitations endpoint error: ").data, [], ?_⟩
      simp [List.append_assoc]
  · intro e2 h h2
    cases mres with
    | resp s b =>
      simp only [HttpResult.isSuccess] at h
      subst h2
      simp [add_to_project, h]
    | transportErr e =>
      subst h2
      simp [add_to_project]

/-- Witness for C2: a 201 primary grants with a single members call; a
403 primary plus 409 fallback yields a message carrying both bodies. -/
theorem add_to_project_fallback_spec_witness :
    add_to_project ⟨.resp 201 "created", .resp 500 "x"⟩ 7 9 .Developer =
      ([⟨.members, .num 7, 30⟩], .ok ()) ∧
    (∃ msg, (add_to_project ⟨.resp 403 "B1", .resp 409 "B2"⟩ 7 9 .Developer).2 = .error msg ∧
      strContains msg "B1" = true ∧ strContains msg "B2" = true) := by
  constructor
  · have h := (add_to_project_fallback_spec ⟨.resp 201 "created", .resp 500 "x"⟩ 7 9
      .Developer).1 (by decide)
    exact h.trans (by decide)
  · exact (add_to_project_fallback_spec ⟨.resp 403 "B1", .resp 409 "B2"⟩ 7 9 .Developer).2.2.1
      403 "B1" 409 "B2" rfl (by decide) rfl (by decide)

/-! ## Resolution lemmas and claims C8 and C1 -/

lemma resolve_project_ids_append_err (env : CmdEnv) (t : String) (post : List String)
    (e : String) (ht : lookupExcept env t = .error e) :
    ∀ pre : List String, (∀ s ∈ pre, ∃ p, lookupExcept env s = .ok p) →
      resolve_project_ids env (pre ++ t :: post) =
        (pre.map lookupCallOf ++ [lookupCallOf t], .error e) := by
  intro pre
  induction pre with
  | nil =>
    intro _
    simp [resolve_project_ids, ht]
  | cons s ss ih =>
    intro hpre
    obtain ⟨p, hp⟩ := hpre s (by simp)
    have hrec := ih fun x hx => hpre x (by simp [hx])
    simp [resolve_project_ids, hp, hrec]

lemma resolve_user_ids_append_err (env : UserCmdEnv) (t : String) (post : List String)
    (e : String) (ht : userLookupExcept env t = .error e) :
    ∀ pre : List String, (∀ s ∈ pre, ∃ u, userLookupExcept env s = .ok u) →
      resolve_user_ids env (pre ++ t :: post) =
        (pre.map userLookupCallOf ++ [userLookupCallOf t], .error e) := by
  intro pre
  induction pre with
  | nil =>
    intro _
    simp [resolve_user_ids, ht]
  | cons s ss ih =>
    intro hpre
    obtain ⟨u, hu⟩ := hpre s (by simp)
    have hrec := ih fun x hx => hpre x (by simp [hx])
    simp [resolve_user_ids, hu, hrec]

/-- C8: explicit-list resolution processes tokens in input order and is
fail-fast: with every token before `t` resolving and `t` failing, the
whole resolution returns the error, no partly resolved list, and no token after
`t` is looked up; a token parseable as an unsigned integer always goes
through the id lookup, never the path/username lookup. -/
theorem explicit_resolution_fail_fast (env : CmdEnv) (uenv : UserCmdEnv)
    (pre : List String) (t : String) (post : List String) (e : String) :
    ((∀ s ∈ pre, ∃ p, lookupExcept env s = .ok p) → lookupExcept env t = .error e →
      resolve_project_ids env (pre ++ t :: post) =
        (pre.map lookupCallOf ++ [lookupCallOf t], .error e)) ∧
    ((∀ s ∈ pre, ∃ u, userLookupExcept uenv s = .ok u) → userLookupExcept uenv t = .error e →
      resolve_user_ids uenv (pre ++ t :: post) =
        (pre.map userLookupCallOf ++ [userLookupCallOf t], .error e)) ∧
    (∀ s n, parseU64 s = some n →
      lookupCallOf s = .getById n ∧ userLookupCallOf s = .getById n) := by
  refine ⟨?_, ?_, ?_⟩
  · intro hpre ht
    exact resolve_project_ids_append_err env t post e ht pre hpre
  · intro hpre ht
    exact resolve_user_ids_append_err uenv t post e ht pre hpre
  · intro s n h
    constructor <;> simp [lookupCallOf, userLookupCallOf, h]

/-- Witness for C8: with token "7" failing after token "5" resolved, the
path token after it is never looked up and the error is returned; and
numeric tokens route to id lookups. -/
theorem explicit_resolution_fail_fast_witness :
    resolve_project_ids env0 ["5", "7", "group/proj"] =
      ([NetCall.getById 5, NetCall.getById 7], .error "404 Project Not Found") ∧
    resolve_user_ids uenv0 ["7", "9", "alice"] =
      ([UserNetCall.getById 7, UserNetCall.getById 9], .error "404 User Not Found") ∧
    lookupCallOf "42" = .getById 42 := by
  refine ⟨?_, ?_, ?_⟩
  · have h := (explicit_resolution_fail_fast env0 uenv0 ["5"] "7" ["group/proj"]
      "404 Project Not Found").1
      (by intro s hs; simp at hs; subst hs; exact ⟨p5, by decide⟩) (by decide)
    exact h.trans (by decide)
  · have h := (explicit_resolution_fail_fast env0 uenv0 ["7"] "9" ["alice"]
      "404 User Not Found").2.1
      (by intro s hs; simp at hs; subst hs; exact ⟨u7, by decide⟩) (by decide)
    exact h.trans (by decide)
  · exact ((explicit_resolution_fail_fast env0 uenv0 [] "42" [] "x").2.2 "42" 42
      (by decide)).1

/-- Counterexample for C1: the resolver does not deduplicate: naming the
same project by id "5" and by path "group/proj" yields two entries with
the same entity id. -/
theorem resolver_dedup_cex :
    (resolve_project_ids env0 ["5", "group/proj"]).2 = .ok [p5, p5] ∧
    ¬ ([p5, p5].map Project.id).Nodup := by
  constructor
  · decide
  · decide

lemma resolve_project_ids_ok_iff (env : CmdEnv) (tokens : List String) :
    ∀ qs : List Project, (resolve_project_ids env tokens).2 = .ok qs ↔
      List.Forall₂ (fun t p => lookupExcept env t = .ok p) tokens qs := by
  induction tokens with
  | nil =>
    intro qs
    simp only [resolve_project_ids, List.forall₂_nil_left_iff]
    constructor
    · intro h
      cases h
      rfl
    · rintro rfl
      rfl
  | cons t ts ih =>
    intro qs
    cases hl : lookupExcept env t with
    | error e =>
      simp only [resolve_project_ids, hl]
      constructor
      · intro h
        cases h
      · intro h
        rw [List.forall₂_cons_left_iff] at h
        obtain ⟨b, l₂, hb, _, _⟩ := h
        rw [hl] at hb
        cases hb
    | ok p =>
      rcases hres : resolve_project_ids env ts with ⟨calls, rres⟩
      have ih2 : ∀ l₂, rres = .ok l₂ ↔
          List.Forall₂ (fun t p => lookupExcept env t = .ok p) ts l₂ := by
        intro l₂
        have := ih l₂
        rw [hres] at this
        exact this
      cases rres with
      | error e =>
        simp only [resolve_project_ids, hl, hres]
        constructor
        · intro h
          cases h
        · intro h
          rw [List.forall₂_cons_left_iff] at h
          obtain ⟨b, l₂, _, hall, _⟩ := h
          have := (ih2 l₂).mpr hall
          cases this
      | ok rest =>
        simp only [resolve_project_ids, hl, hres]
        rw [List.forall₂_cons_left_iff]
        constructor
        · intro h
          cases h
          exact ⟨p, rest, hl, (ih2 rest).mp rfl, rfl⟩
        · rintro ⟨b, l₂, hb, hall, rfl⟩
          rw [hl] at hb
          cases hb
          have := (ih2 l₂).mpr hall
          cases this
          rfl

lemma resolve_user_ids_ok_iff (uenv : UserCmdEnv) (tokens : List String) :
    ∀ qs : List User, (resolve_user_ids uenv tokens).2 = .ok qs ↔
      List.Forall₂ (fun t u => userLookupExcept uenv t = .ok u) tokens qs := by
  induction tokens with
  | nil =>
    intro qs
    simp only [resolve_user_ids, List.forall₂_nil_left_iff]
    constructor
    · intro h
      cases h
      rfl
    · rintro rfl
      rfl
  | cons t ts ih =>
    intro qs
    cases hl : userLookupExcept uenv t with
    | error e =>
      simp only [resolve_user_ids, hl]
      constructor
      · intro h
        cases h
      · intro h
        rw [List.forall₂_cons_left_iff] at h
        obtain ⟨b, l₂, hb, _, _⟩ := h
        rw [hl] at hb
        cases hb
    | ok u =>
      rcases hres : resolve_user_ids uenv ts with ⟨calls, rres⟩
      have ih2 : ∀ l₂, rres = .ok l₂ ↔
          List.Forall₂ (fun t u => userLookupExcept uenv t = .ok u) ts l₂ := by
        intro l₂
        have := ih l₂
        rw [hres] at this
        exact this
      cases rres with
      | error e =>
        simp only [resolve_user_ids, hl, hres]
        constructor
        · intro h
          cases h
        · intro h
          rw [List.forall₂_cons_left_iff] at h
          obtain ⟨b, l₂, _, hall, _⟩ := h
          have := (ih2 l₂).mpr hall
          cases this
      | ok rest =>
        simp only [resolve_user_ids, hl, hres]
        rw [List.forall₂_cons_left_iff]
        constructor
        · intro h
          cases h
          exact ⟨u, rest, hl, (ih2 rest).mp rfl, rfl⟩
        · rintro ⟨b, l₂, hb, hall, rfl⟩
          rw [hl] at hb
          cases hb
          have := (ih2 l₂).mpr hall
          cases this
          rfl

/-- C1 amended: explicit-list resolution, for projects and for users, is
order-stable and one-entry-per-token with no deduplication: a success
returns exactly the token-wise resolved entities in input-token order
(so an entity named twice appears twice), and the output length equals
the token count. -/
theorem resolver_order_stable (env : CmdEnv) (uenv : UserCmdEnv)
    (ptokens utokens : List String) (ps : List Project) (us : List User) :
    ((resolve_project_ids env ptokens).2 = .ok ps ↔
      List.Forall₂ (fun t p => lookupExcept env t = .ok p) ptokens ps) ∧
    ((resolve_project_ids env ptokens).2 = .ok ps → ps.length = ptokens.length) ∧
    ((resolve_user_ids uenv utokens).2 = .ok us ↔
      List.Forall₂ (fun t u => userLookupExcept uenv t = .ok u) utokens us) ∧
    ((resolve_user_ids uenv utokens).2 = .ok us → us.length = utokens.length) := by
  refine ⟨resolve_project_ids_ok_iff env ptokens ps, fun h => ?_,
    resolve_user_ids_ok_iff uenv utokens us, fun h => ?_⟩
  · exact (List.Forall₂.length_eq ((resolve_project_ids_ok_iff env ptokens ps).mp h)).symm
  · exact (List.Forall₂.length_eq ((resolve_user_ids_ok_iff uenv utokens us).mp h)).symm

/-- Witness for C1: resolving project tokens id 5 then path "group/proj"
succeeds with exactly two entries in token order, both the same project;
resolving user tokens id 7 then username "alice" likewise yields the
same user twice. -/
theorem resolver_order_stable_witness :
    (resolve_project_ids env0 ["5", "group/proj"]).2 = .ok [p5, p5] ∧
    ([p5, p5] : List Project).length = (["5", "group/proj"] : List String).length ∧
    (resolve_user_ids uenv0 ["7", "alice"]).2 = .ok [u7, u7] ∧
    ([u7, u7] : List User).length = (["7", "alice"] : List String).length := by
  refine ⟨?_, by decide, ?_, by decide⟩
  · exact (resolver_order_stable env0 uenv0 ["5", "group/proj"] ["7", "alice"]
      [p5, p5] [u7, u7]).1.mpr
      (List.Forall₂.cons (by decide) (List.Forall₂.cons (by decide) List.Forall₂.nil))
  · exact (resolver_order_stable env0 uenv0 ["5", "group/proj"] ["7", "alice"]
      [p5, p5] [u7, u7]).2.2.1.mpr
      (List.Forall₂.cons (by decide) (List.Forall₂.cons (by decide) List.Forall₂.nil))

/-! ## Content-rewriting lemmas and claim C9 -/

lemma replaceGo_fuel_congr (pat rep : List Char) :
    ∀ fuel1 fuel2 s, s.length ≤ fuel1 → s.length ≤ fuel2 →
      replaceGo pat rep fuel1 s = replaceGo pat rep fuel2 s := by
  intro fuel1
  induction fuel1 with
  | zero =>
    intro fuel2 s h1 _
    have hs : s = [] := List.length_eq_zero.mp (Nat.le_zero.mp h1)
    subst hs
    cases fuel2 <;> rfl
  | succ f ih =>
    intro fuel2 s h1 h2
    cases s with
    | nil => cases fuel2 <;> rfl
    | cons c cs =>
      match fuel2, h2 with
      | f2 + 1, h2 =>
        simp only [List.length_cons] at h1 h2
        by_cases hp : pat.isEmpty
        · simp only [replaceGo, hp, if_true]
          rw [ih f2 cs (by omega) (by omega)]
        · have hp' : pat.isEmpty = false := Bool.eq_false_iff.mpr hp
          have hlen : 0 < pat.length :=
            List.length_pos.mpr (by simpa [List.isEmpty_iff] using hp)
          by_cases hpre : pat.isPrefixOf (c :: cs)
          · have hpre' : pat.isPrefixOf (c :: cs) = true := hpre
            simp only [replaceGo, hp', hpre', Bool.false_eq_true, if_false, if_true]
            rw [ih f2 ((c :: cs).drop pat.length)
              (by simp only [List.length_drop, List.length_cons]; omega)
              (by simp only [List.length_drop, List.length_cons]; omega)]
          · have hpre' : pat.isPrefixOf (c :: cs) = false := Bool.eq_false_iff.mpr hpre
            simp only [replaceGo, hp', hpre', Bool.false_eq_true, if_false]
            rw [ih f2 cs (by omega) (by omega)]

lemma replaceGo_no_occurrence (pat rep : List Char) (hpat : pat ≠ []) :
    ∀ fuel s, s.length ≤ fuel → ¬ (pat <:+: s) → replaceGo pat rep fuel s = s := by
  intro fuel
  induction fuel with
  | zero =>
    intro s h1 _
    have hs : s = [] := List.length_eq_zero.mp (Nat.le_zero.mp h1)
    subst hs
    simp [replaceGo, hpat]
  | succ f ih =>
    intro s h1 h
    cases s with
    | nil => simp [replaceGo, hpat]
    | cons c cs =>
      have hne : pat.isEmpty = false := by simp [hpat]
      have hpref : pat.isPrefixOf (c :: cs) = false := by
        rw [Bool.eq_false_iff]
        intro hp
        have hp2 : pat <+: c :: cs := List.isPrefixOf_iff_prefix.mp hp
        exact h hp2.isInfix
      have htail : ¬ (pat <:+: cs) := by
        intro hinf
        have hsuf : cs <:+ c :: cs := ⟨[c], rfl⟩
        exact h (hinf.trans hsuf.isInfix)
      simp only [replaceGo, hne, hpref, Bool.false_eq_true, if_false]
      rw [ih cs (by simpa using h1) htail]

lemma replaceList_no_occurrence (pat rep : List Char) (hpat : pat ≠ []) :
    ∀ s : List Char, ¬ (pat <:+: s) → replaceList pat rep s = s :=
  fun s h => replaceGo_no_occurrence pat rep hpat s.length s le_rfl h

lemma replaceList_head_match (pat rep : List Char) (hpat : pat ≠ []) (rest : List Char) :
    replaceList pat rep (pat ++ rest) = rep ++ replaceList pat rep rest := by
  match pat, hpat with
  | a :: as, _ =>
    have hne : (a :: as).isEmpty = false := by simp
    have hpref : (a :: as).isPrefixOf (a :: as ++ rest) = true :=
      List.isPrefixOf_iff_prefix.mpr ⟨rest, by simp⟩
    have hlen : ((a :: as) ++ rest).length = (as ++ rest).length + 1 := by simp
    rw [replaceList, hlen, show (a :: as) ++ rest = a :: (as ++ rest) from rfl]
    simp only [replaceGo, hne, Bool.false_eq_true, if_false]
    rw [show a :: (as ++ rest) = (a :: as) ++ rest from rfl, hpref]
    simp only [if_true, List.drop_left]
    rw [replaceList, replaceGo_fuel_congr (a :: as) rep (as ++ rest).length rest.length rest
      (by simp) le_rfl]

/-- C9: the change list is applied sequentially to the full content; a
specification splitting into exactly two colon-delimited parts performs
a literal whole-content replacement of the first part by the second,
while any other specification is skipped, leaving the content of that
step unchanged and raising no error; the replacement rewrites every
occurrence (a head occurrence is rewritten and a pattern that occurs
nowhere leaves the content untouched). -/
theorem content_changes_spec :
    (∀ ch cs content, applyChanges (ch :: cs) content =
      applyChanges cs (applyChange content ch)) ∧
    (∀ content a b ch, splitColon ch = [a, b] →
      applyChange content ch = replaceStr content a b) ∧
    (∀ content ch, (splitColon ch).length ≠ 2 → applyChange content ch = content) ∧
    (∀ pat rep s : String, pat.data ≠ [] → ¬ (pat.data <:+: s.data) →
      replaceStr s pat rep = s) ∧
    (∀ pat rep : String, ∀ rest : List Char, pat.data ≠ [] →
      replaceList pat.data rep.data (pat.data ++ rest) =
        rep.data ++ replaceList pat.data rep.data rest) := by
  refine ⟨fun ch cs content => rfl, ?_, ?_, ?_, ?_⟩
  · intro content a b ch h
    simp [applyChange, h]
  · intro content ch h
    rcases hsp : splitColon ch with _ | ⟨x, xs⟩
    · simp [applyChange, hsp]
    · rcases xs with _ | ⟨y, ys⟩
      · simp [applyChange, hsp]
      · rcases ys with _ | ⟨z, zs⟩
        · exact absurd (by simp [hsp]) h
        · simp [applyChange, hsp]
  · intro pat rep s hpat h
    have := replaceList_no_occurrence pat.data rep.data hpat s.data h
    simp only [replaceStr, this]
  · intro pat rep rest hpat
    exact replaceList_head_match pat.data rep.data hpat rest

/-- Witness for C9: a malformed three-part change is skipped, a
two-part change performs the replacement, and a pattern with no
occurrence leaves the content unchanged. -/
theorem content_changes_spec_witness :
    applyChange "hello a" "a:b:c" = "hello a" ∧
    applyChange "hello a" "a:b" = replaceStr "hello a" "a" "b" ∧
    replaceStr "xyz" "q" "r" = "xyz" ∧
    applyChanges ["a:b", "a:b:c"] "hello a" = "hello b" := by
  refine ⟨content_changes_spec.2.2.1 "hello a" "a:b:c" (by decide),
    content_changes_spec.2.1 "hello a" "a" "b" "a:b" (by decide),
    content_changes_spec.2.2.2.1 "q" "r" "xyz" (by decide) (by decide), ?_⟩
  have h := content_changes_spec.1 "a:b" ["a:b:c"] "hello a"
  exact h.trans (by decide)

/-! ## Claim C4: usage errors versus network calls -/

lemma lookupCallOf_not_update (t : String) : (lookupCallOf t).isUpdate = false := by
  unfold lookupCallOf
  cases parseU64 t <;> rfl

lemma resolve_project_ids_no_update (env : CmdEnv) :
    ∀ ids, ∀ c ∈ (resolve_project_ids env ids).1, c.isUpdate = false := by
  intro ids
  induction ids with
  | nil =>
    intro c hc
    simp [resolve_project_ids] at hc
  | cons t ts ih =>
    intro c hc
    cases hl : lookupExcept env t with
    | error e =>
      simp [resolve_project_ids, hl] at hc
      subst hc
      exact lookupCallOf_not_update t
    | ok p =>
      rcases hres : resolve_project_ids env ts with ⟨calls, rres⟩
      cases rres with
      | error e =>
        simp [resolve_project_ids, hl, hres] at hc
        rcases hc with rfl | hc
        · exact lookupCallOf_not_update t
        · exact ih c (by rw [hres]; exact hc)
      | ok rest =>
        simp [resolve_project_ids, hl, hres] at hc
        rcases hc with rfl | hc
        · exact lookupCallOf_not_update t
        · exact ih c (by rw [hres]; exact hc)

lemma selectProjects_no_update (env : CmdEnv) (args : TopicsArgs) :
    ∀ c ∈ (selectProjects env args).1, c.isUpdate = false := by
  rcases args with ⟨tps, pf, pids, ft⟩
  intro c hc
  cases pf with
  | some f => simp [selectProjects] at hc
  | none =>
    cases pids with
    | some ids =>
      simp only [selectProjects] at hc
      exact resolve_project_ids_no_update env ids c hc
    | none =>
      cases ft with
      | some t =>
        rcases hp : paginate (env.fetchTopicPage t) env.pageFuel 1 with ⟨pgs, r⟩
        simp only [selectProjects, hp] at hc
        obtain ⟨n, _, rfl⟩ := List.mem_map.mp hc
        rfl
      | none => simp [selectProjects] at hc

/-- Counterexample for C4: with an explicit id list and a tag list that
trims to empty, the invocation is a usage error ("No valid topics
provided"), yet a lookup network call has already been issued before the
error surfaces. -/
theorem usage_error_before_network_cex :
    add_topics env0 ⟨["   "], none, some ["5"], none⟩ =
      ([NetCall.getById 5], .error "No valid topics provided") ∧
    (add_topics env0 ⟨["   "], none, some ["5"], none⟩).1 ≠ [] := by
  constructor
  · decide
  · decide

/-- C4 amended: the no-selection-mode error and the unsupported-extension
error are surfaced with no network call issued; the empty-tag-list error
is likewise surfaced before any tag-set replace mutation, but only after
target resolution, whose lookup calls may already have been issued. Both
the add and the remove command behave this way. -/
theorem usage_errors_spec (env : CmdEnv) (args : TopicsArgs) :
    (args.project_file = none → args.project_ids = none → args.filter_topic = none →
      add_topics env args =
        ([], .error "Either --project-file, --project-ids, or --filter-topic must be provided") ∧
      remove_topics env args =
        ([], .error "Either --project-file, --project-ids, or --filter-topic must be provided")) ∧
    (∀ f, args.project_file = some f → toLowerStr (extensionOf f) ≠ "csv" →
      add_topics env args =
        ([], .error ("Unsupported file format: " ++ extensionOf f ++
          ". Only CSV files are supported.")) ∧
      remove_topics env args =
        ([], .error ("Unsupported file format: " ++ extensionOf f ++
          ". Only CSV files are supported."))) ∧
    (trimTopics args.topics = [] →
      (∃ e, (add_topics env args).2 = .error e) ∧
      (∃ e, (remove_topics env args).2 = .error e) ∧
      (∀ c ∈ (add_topics env args).1, c.isUpdate = false) ∧
      (∀ c ∈ (remove_topics env args).1, c.isUpdate = false)) := by
  refine ⟨?_, ?_, ?_⟩
  · rcases args with ⟨tps, pf, pids, ft⟩
    rintro rfl rfl rfl
    constructor <;> rfl
  · rcases args with ⟨tps, pf, pids, ft⟩
    rintro f rfl hext
    constructor <;> simp [add_topics, remove_topics, selectProjects, load_projects_from_file, hext]
  · intro htrim
    rcases hsel : selectProjects env args with ⟨calls1, pr⟩
    have hnoup : ∀ c ∈ calls1, NetCall.isUpdate c = false := by
      intro c hc
      exact selectProjects_no_update env args c (by rw [hsel]; exact hc)
    cases pr with
    | error e =>
      refine ⟨⟨e, by simp [add_topics, hsel]⟩, ⟨e, by simp [remove_topics, hsel]⟩, ?_, ?_⟩
      · intro c hc
        exact hnoup c (by simpa [add_topics, hsel] using hc)
      · intro c hc
        exact hnoup c (by simpa [remove_topics, hsel] using hc)
    | ok projs =>
      refine ⟨⟨"No valid topics provided", by simp [add_topics, hsel, htrim]⟩,
        ⟨"No valid topics provided", by simp [remove_topics, hsel, htrim]⟩, ?_, ?_⟩
      · intro c hc
        exact hnoup c (by simpa [add_topics, hsel, htrim] using hc)
      · intro c hc
        exact hnoup c (by simpa [remove_topics, hsel, htrim] using hc)

/-- Witness for C4: the three usage-error shapes at concrete inputs. -/
theorem usage_errors_spec_witness :
    add_topics env0 ⟨["x"], none, none, none⟩ =
      ([], .error "Either --project-file, --project-ids, or --filter-topic must be provided") ∧
    add_topics env0 ⟨["x"], some "projects.txt", none, none⟩ =
      ([], .error "Unsupported file format: txt. Only CSV files are supported.") ∧
    (∃ e, (add_topics env0 ⟨["  "], none, some ["5"], none⟩).2 = .error e) := by
  refine ⟨((usage_errors_spec env0 ⟨["x"], none, none, none⟩).1 rfl rfl rfl).1, ?_,
    ((usage_errors_spec env0 ⟨["  "], none, some ["5"], none⟩).2.2 (by decide)).1⟩
  have h := ((usage_errors_spec env0 ⟨["x"], some "projects.txt", none, none⟩).2.1
    "projects.txt" rfl (by decide)).1
  exact h.trans (by decide)
